import Mathlib

/-!
Verification of `scripts/extract_changelog.py`.

The script is embedded shallowly: a document is a list of lines, a line is a
list of characters, and `main` becomes the pure function `run` below.  The
regular expression `^## \[<escaped version>\](?:\s|$)` built with `re.escape`
matches literally, so it is embedded as the string-level test `headerMatch`.
-/

namespace ExtractChangelog

/-- A line of text, as a sequence of characters. -/
abbrev Line := List Char

/-- Python's whitespace set, as used by `str.strip` / `str.rstrip` and by the
regex class `\s` on `str` patterns: ASCII whitespace, the C1 separators, and
the Unicode space characters. -/
def pyIsSpace (c : Char) : Bool :=
  c == ' ' || c == '\t' || c == '\n' || c == '\r' || c == '\x0b' || c == '\x0c' ||
  c == '\x1c' || c == '\x1d' || c == '\x1e' || c == '\x1f' ||
  c == '\x85' || c == '\u00A0' || c == '\u1680' ||
  ('\u2000' ≤ c && c ≤ '\u200A') ||
  c == '\u2028' || c == '\u2029' || c == '\u202F' || c == '\u205F' || c == '\u3000'

/-- `s.strip()`. -/
def pyStrip (l : Line) : Line :=
  ((l.dropWhile pyIsSpace).reverse.dropWhile pyIsSpace).reverse

/-- `s.rstrip()`. -/
def pyRstrip (l : Line) : Line :=
  (l.reverse.dropWhile pyIsSpace).reverse

/-- The literal text `"## [" + version + "]"` that the header regex requires
at the start of a line (`re.escape` makes `version` literal). -/
def headerPat (version : Line) : Line :=
  "## [".data ++ version ++ "]".data

/-- `header_re.match(line) is not None`, for
`header_re = re.compile(rf"^## \[{re.escape(version)}\](?:\s|$)")`:
the line starts with the literal pattern text, and the pattern text is
followed by a whitespace character or by the end of the line. -/
def headerMatch (version line : Line) : Bool :=
  line.take (headerPat version).length == headerPat version &&
    (match line.drop (headerPat version).length with
     | [] => true
     | c :: _ => pyIsSpace c)

/-- `line.startswith("## [")`, the boundary test for the end of a section. -/
def isBoundary (line : Line) : Bool :=
  line.take 4 == "## [".data

/-- `text[start + 1 : end]` where `end` is the index of the first line after
`start` that starts with `"## ["`, or `len(text)` when there is none. -/
def rawSection (doc : List Line) (start : Nat) : List Line :=
  let tail := doc.drop (start + 1)
  match tail.findIdx? isBoundary with
  | some k => tail.take k
  | none => tail

/-- `line.strip() == ""`. -/
def isBlank (l : Line) : Bool :=
  pyStrip l == ([] : Line)

/-- The two trimming loops: pop blank lines at the front, then at the back. -/
def trimBlanks (ls : List Line) : List Line :=
  ((ls.dropWhile isBlank).reverse.dropWhile isBlank).reverse

/-- `"\n".join(lines)`. -/
def joinNL : List Line → Line
  | [] => []
  | [l] => l
  | l :: l' :: ls => l ++ '\n' :: joinNL (l' :: ls)

/-- The observable result of one invocation: the process exit code, the text
written to standard output, and the text written to standard error. -/
structure Outcome where
  exitCode : Nat
  out : Line
  err : Line
deriving DecidableEq

/-- `print("Usage: extract_changelog.py <version>", file=sys.stderr)`. -/
def usageMsg : Line :=
  "Usage: extract_changelog.py <version>".data ++ ['\n']

/-- `print("Version cannot be empty", file=sys.stderr)`. -/
def emptyMsg : Line :=
  "Version cannot be empty".data ++ ['\n']

/-- `print(f"Could not find CHANGELOG section for version {version}", ...)`. -/
def notFoundMsg (version : Line) : Line :=
  "Could not find CHANGELOG section for version ".data ++ version ++ ['\n']

/-- The part of `main` that runs after argument validation: scan for the
header, fail with exit code 1 when it is absent, otherwise slice, trim,
join and emit the section. -/
def scanDoc (doc : List Line) (version : Line) : Outcome :=
  match doc.findIdx? (headerMatch version) with
  | none => ⟨1, [], notFoundMsg version⟩
  | some start =>
      ⟨0, pyRstrip (joinNL (trimBlanks (rawSection doc start))) ++ ['\n'], []⟩

/-- `main()`. `argv` is `sys.argv[1:]` (the arguments after the program name)
and `doc` is `CHANGELOG.md` split into lines; the argument checks run before
the document is consulted, exactly as in the script. -/
def run (argv : List Line) (doc : List Line) : Outcome :=
  match argv with
  | [arg] =>
      let version := pyStrip arg
      if version = [] then ⟨2, [], emptyMsg⟩ else scanDoc doc version
  | _ => ⟨2, [], usageMsg⟩

/-- Splitting a text at `'\n'` characters, the inverse view of `joinNL`;
used to state which lines appear in the emitted output. -/
def linesOf : Line → List Line
  | [] => [[]]
  | c :: cs =>
      if c = '\n' then [] :: linesOf cs
      else
        match linesOf cs with
        | [] => [[c]]
        | l :: ls => (c :: l) :: ls

/-! ### Generic list helpers -/

/-- Every element kept by `takeWhile` satisfies the predicate. -/
theorem mem_takeWhile_pred {α : Type} {p : α → Bool} :
    ∀ {l : List α} {a : α}, a ∈ l.takeWhile p → p a = true := by
  intro l
  induction l with
  | nil => intro a h; cases h
  | cons x xs ih =>
      intro a h
      rw [List.takeWhile_cons] at h
      by_cases hx : p x = true
      · simp only [hx, if_true] at h
        rcases List.mem_cons.mp h with rfl | h
        · exact hx
        · exact ih h
      · simp only [hx, if_false] at h
        cases h

/-- Slicing a list up to the first index satisfying `p` (or keeping it whole
when there is none) is `takeWhile` of the negated predicate. -/
theorem take_findIdx_eq_takeWhile {α : Type} (p : α → Bool) (l : List α) :
    (match l.findIdx? p with
     | some k => l.take k
     | none => l) = l.takeWhile (fun a => !p a) := by
  induction l with
  | nil => rfl
  | cons a as ih =>
      by_cases h : p a = true
      · simp [List.findIdx?_cons, h, List.takeWhile_cons]
      · rw [Bool.not_eq_true] at h
        simp only [List.findIdx?_cons, h, Bool.false_eq_true, if_false,
          List.findIdx?_start_succ, List.takeWhile_cons, h, Bool.not_false, if_true]
        cases hfind : as.findIdx? p with
        | none =>
            rw [hfind] at ih
            simp only [Option.map_none']
            exact congrArg (a :: ·) ih
        | some k =>
            rw [hfind] at ih
            simp only [Option.map_some']
            rw [List.take_succ_cons]
            exact congrArg (a :: ·) ih

/-- The head surviving `dropWhile` fails the predicate. -/
theorem head?_dropWhile_false {α : Type} {p : α → Bool} {l : List α} {a : α}
    (h : (l.dropWhile p).head? = some a) : p a = false := by
  have := List.head?_dropWhile_not p l
  rw [h] at this
  exact this

/-- `dropWhile` is idempotent. -/
theorem dropWhile_self {α : Type} (p : α → Bool) (l : List α) :
    (l.dropWhile p).dropWhile p = l.dropWhile p := by
  cases h : l.dropWhile p with
  | nil => rfl
  | cons a as =>
      have ha : p a = false := head?_dropWhile_false (by rw [h]; rfl)
      rw [List.dropWhile_cons, ha]
      simp

/-- `dropWhile` keeps the last element of a list it does not empty. -/
theorem getLast?_dropWhile {α : Type} (p : α → Bool) (l : List α)
    (h : l.dropWhile p ≠ []) : (l.dropWhile p).getLast? = l.getLast? := by
  conv_rhs => rw [← List.takeWhile_append_dropWhile p l]
  rw [List.getLast?_append]
  cases hg : (l.dropWhile p).getLast? with
  | none => exact absurd (List.getLast?_eq_none_iff.mp hg) h
  | some a => rfl

/-- A list whose head (when present) fails the predicate is untouched by
`dropWhile`. -/
theorem dropWhile_eq_self_of_head {α : Type} {p : α → Bool} {l : List α}
    (h : ∀ a, l.head? = some a → p a = false) : l.dropWhile p = l := by
  cases l with
  | nil => rfl
  | cons a as =>
      rw [List.dropWhile_cons, h a rfl]
      simp

/-! ### Properties of strip / rstrip -/

/-- `str.strip` is idempotent. -/
theorem pyStrip_idem (l : Line) : pyStrip (pyStrip l) = pyStrip l := by
  have hdrop : (pyStrip l).dropWhile pyIsSpace = pyStrip l := by
    apply dropWhile_eq_self_of_head
    intro a ha
    unfold pyStrip at ha
    rw [List.head?_reverse] at ha
    have hne : (l.dropWhile pyIsSpace).reverse.dropWhile pyIsSpace ≠ [] := by
      intro h0
      rw [h0] at ha
      simp at ha
    rw [getLast?_dropWhile pyIsSpace (l.dropWhile pyIsSpace).reverse hne,
      List.getLast?_reverse] at ha
    exact head?_dropWhile_false ha
  show (((pyStrip l).dropWhile pyIsSpace).reverse.dropWhile pyIsSpace).reverse = pyStrip l
  rw [hdrop]
  unfold pyStrip
  rw [List.reverse_reverse, dropWhile_self]

/-- `rstrip` distributes over an append whose right part it does not erase. -/
theorem pyRstrip_append (A B : Line) (h : pyRstrip B ≠ []) :
    pyRstrip (A ++ B) = A ++ pyRstrip B := by
  have hB : B.reverse.dropWhile pyIsSpace ≠ [] := by
    intro h0
    apply h
    unfold pyRstrip
    rw [h0, List.reverse_nil]
  unfold pyRstrip
  rw [List.reverse_append, List.dropWhile_append]
  have : (B.reverse.dropWhile pyIsSpace).isEmpty = false := by
    rwa [List.isEmpty_eq_false]
  rw [this]
  simp

/-- Every text splits as its `rstrip` followed by trailing whitespace. -/
theorem pyRstrip_decomp (l : Line) :
    ∃ t, l = pyRstrip l ++ t ∧ ∀ c ∈ t, pyIsSpace c = true := by
  refine ⟨(l.reverse.takeWhile pyIsSpace).reverse, ?_, ?_⟩
  · conv_lhs => rw [← List.reverse_reverse l,
      ← List.takeWhile_append_dropWhile pyIsSpace l.reverse]
    rw [List.reverse_append]
    rfl
  · intro c hc
    rw [List.mem_reverse] at hc
    exact mem_takeWhile_pred hc

/-- A line that is blank after a full strip is erased by `rstrip` alone. -/
theorem pyRstrip_eq_nil_of_strip (l : Line) (h : pyRstrip l = []) :
    pyStrip l = [] := by
  have hall : ∀ c ∈ l.reverse, pyIsSpace c := by
    rw [← List.dropWhile_eq_nil_iff]
    unfold pyRstrip at h
    rwa [List.reverse_eq_nil_iff] at h
  have hl : ∀ c ∈ l, pyIsSpace c := by
    intro c hc
    exact hall c (List.mem_reverse.mpr hc)
  unfold pyStrip
  rw [List.dropWhile_eq_nil_iff.mpr hl]
  rfl

/-! ### Trimming both ends of a list

`pyStrip` and `trimBlanks` share the shape
`((l.dropWhile p).reverse.dropWhile p).reverse`; the next lemmas are stated
over that shape. -/

/-- The two-sided trim splits the list into a trimmed prefix, the kept
middle, and a trimmed suffix. -/
theorem trimEnds_decomp {α : Type} (p : α → Bool) (l : List α) :
    ∃ front back,
      l = front ++ ((l.dropWhile p).reverse.dropWhile p).reverse ++ back ∧
      (∀ a ∈ front, p a = true) ∧ (∀ a ∈ back, p a = true) := by
  have hX : l.dropWhile p =
      ((l.dropWhile p).reverse.dropWhile p).reverse ++
        ((l.dropWhile p).reverse.takeWhile p).reverse := by
    conv_lhs => rw [← List.reverse_reverse (l.dropWhile p),
      ← List.takeWhile_append_dropWhile p (l.dropWhile p).reverse]
    rw [List.reverse_append]
  refine ⟨l.takeWhile p, ((l.dropWhile p).reverse.takeWhile p).reverse, ?_, ?_, ?_⟩
  · symm
    rw [List.append_assoc, ← hX, List.takeWhile_append_dropWhile]
  · intro a ha
    exact mem_takeWhile_pred ha
  · intro a ha
    rw [List.mem_reverse] at ha
    exact mem_takeWhile_pred ha

/-- The first element surviving the two-sided trim fails the predicate. -/
theorem trimEnds_head? {α : Type} (p : α → Bool) (l : List α) {a : α}
    (h : (((l.dropWhile p).reverse.dropWhile p).reverse).head? = some a) :
    p a = false := by
  rw [List.head?_reverse] at h
  have hne : (l.dropWhile p).reverse.dropWhile p ≠ [] := by
    intro h0
    rw [h0] at h
    simp at h
  rw [getLast?_dropWhile p (l.dropWhile p).reverse hne, List.getLast?_reverse] at h
  exact head?_dropWhile_false h

/-- The last element surviving the two-sided trim fails the predicate. -/
theorem trimEnds_getLast? {α : Type} (p : α → Bool) (l : List α) {a : α}
    (h : (((l.dropWhile p).reverse.dropWhile p).reverse).getLast? = some a) :
    p a = false := by
  rw [List.getLast?_reverse] at h
  exact head?_dropWhile_false h

/-- A list all of whose elements satisfy the predicate trims to nothing. -/
theorem trimEnds_eq_nil {α : Type} (p : α → Bool) (l : List α)
    (h : ∀ a ∈ l, p a = true) :
    ((l.dropWhile p).reverse.dropWhile p).reverse = [] := by
  rw [List.dropWhile_eq_nil_iff.mpr h]
  rfl

/-! ### The section slice -/

/-- The raw section is everything after the heading up to the first later
boundary line: a `takeWhile` of the non-boundary test. -/
theorem rawSection_eq_takeWhile (doc : List Line) (i : Nat) :
    rawSection doc i = (doc.drop (i + 1)).takeWhile (fun l => !isBoundary l) := by
  unfold rawSection
  exact take_findIdx_eq_takeWhile isBoundary (doc.drop (i + 1))

/-! ### Joining and splitting lines -/

/-- Appending one more line to a nonempty join inserts one separator. -/
theorem joinNL_append_single (L : List Line) (x : Line) (h : L ≠ []) :
    joinNL (L ++ [x]) = joinNL L ++ '\n' :: x := by
  induction L with
  | nil => cases h rfl
  | cons a as ih =>
      cases as with
      | nil => simp [joinNL]
      | cons b bs =>
          have hih := ih (List.cons_ne_nil b bs)
          simp only [List.cons_append] at hih ⊢
          rw [show joinNL (a :: b :: (bs ++ [x])) = a ++ '\n' :: joinNL (b :: (bs ++ [x]))
              from rfl,
            show joinNL (a :: b :: bs) = a ++ '\n' :: joinNL (b :: bs) from rfl,
            hih]
          simp

/-- `joinNL` is the standard intercalation with a newline separator. -/
theorem joinNL_eq_intercalate (L : List Line) :
    joinNL L = List.intercalate ['\n'] L := by
  induction L with
  | nil => rfl
  | cons a as ih =>
      cases as with
      | nil => simp [joinNL, List.intercalate]
      | cons b bs =>
          rw [show joinNL (a :: b :: bs) = a ++ '\n' :: joinNL (b :: bs) from rfl, ih]
          simp [List.intercalate]

/-- A text without newline characters is a single line. -/
theorem linesOf_no_newline (l : Line) (h : ¬ '\n' ∈ l) : linesOf l = [l] := by
  induction l with
  | nil => rfl
  | cons c cs ih =>
      have hc : ¬ c = '\n' := fun h0 => h (h0 ▸ List.mem_cons_self c cs)
      have hcs : ¬ '\n' ∈ cs := fun h0 => h (List.mem_cons_of_mem c h0)
      rw [show linesOf (c :: cs) =
          (if c = '\n' then [] :: linesOf cs
           else match linesOf cs with
             | [] => [[c]]
             | l :: ls => (c :: l) :: ls) from rfl,
        if_neg hc, ih hcs]

/-- Splitting after a newline-free first line peels that line off. -/
theorem linesOf_append_newline (l : Line) (h : ¬ '\n' ∈ l) (rest : Line) :
    linesOf (l ++ '\n' :: rest) = l :: linesOf rest := by
  induction l with
  | nil =>
      rw [List.nil_append,
        show linesOf ('\n' :: rest) =
          (if '\n' = '\n' then [] :: linesOf rest
           else match linesOf rest with
             | [] => [['\n']]
             | l :: ls => ('\n' :: l) :: ls) from rfl,
        if_pos rfl]
  | cons c cs ih =>
      have hc : ¬ c = '\n' := fun h0 => h (h0 ▸ List.mem_cons_self c cs)
      have hcs : ¬ '\n' ∈ cs := fun h0 => h (List.mem_cons_of_mem c h0)
      rw [List.cons_append,
        show linesOf (c :: (cs ++ '\n' :: rest)) =
          (if c = '\n' then [] :: linesOf (cs ++ '\n' :: rest)
           else match linesOf (cs ++ '\n' :: rest) with
             | [] => [[c]]
             | l :: ls => (c :: l) :: ls) from rfl,
        if_neg hc, ih hcs]

/-- Splitting the join of nonempty, newline-free lines recovers the lines. -/
theorem linesOf_joinNL (L : List Line) (hne : L ≠ [])
    (h : ∀ l ∈ L, ¬ '\n' ∈ l) : linesOf (joinNL L) = L := by
  induction L with
  | nil => cases hne rfl
  | cons a as ih =>
      cases as with
      | nil =>
          rw [show joinNL [a] = a from rfl]
          exact linesOf_no_newline a (h a (List.mem_cons_self a []))
      | cons b bs =>
          rw [show joinNL (a :: b :: bs) = a ++ '\n' :: joinNL (b :: bs) from rfl,
            linesOf_append_newline a (h a (List.mem_cons_self a (b :: bs))),
            ih (List.cons_ne_nil b bs) (fun l hl => h l (List.mem_cons_of_mem a hl))]

/-- A text that starts with the boundary marker keeps it under extension. -/
theorem isBoundary_append (P t : Line) (h : isBoundary P = true) :
    isBoundary (P ++ t) = true := by
  unfold isBoundary at h ⊢
  have hP : P.take 4 = "## [".data := by
    exact eq_of_beq h
  have hlen : 4 ≤ P.length := by
    have h4 : ("## [".data).length = 4 := rfl
    have := congrArg List.length hP
    rw [List.length_take, h4] at this
    omega
  rw [List.take_append_of_le_length hlen, hP]
  rfl

/-- A line matching the full heading in particular starts with `"## ["`. -/
theorem isBoundary_of_headerMatch (version line : Line)
    (h : headerMatch version line = true) : isBoundary line = true := by
  unfold headerMatch at h
  rw [Bool.and_eq_true] at h
  have hpre : line.take (headerPat version).length = headerPat version :=
    eq_of_beq h.1
  have hline : line = headerPat version ++ line.drop (headerPat version).length := by
    conv_lhs => rw [← List.take_append_drop (headerPat version).length line]
    rw [hpre]
  have hpat : isBoundary (headerPat version) = true := by
    have h0 : isBoundary ("## [".data) = true := by decide
    have := isBoundary_append "## [".data (version ++ "]".data) h0
    rw [← List.append_assoc] at this
    exact this
  rw [hline]
  exact isBoundary_append _ _ hpat

/-- `takeWhile` stops no later than the first failing index. -/
theorem takeWhile_length_le {α : Type} {q : α → Bool} :
    ∀ {l : List α} {m : Nat} (hm : m < l.length),
      q (l.get ⟨m, hm⟩) = false → (l.takeWhile q).length ≤ m := by
  intro l
  induction l with
  | nil => intro m hm; exact absurd hm (Nat.not_lt_zero m)
  | cons a as ih =>
      intro m hm hq
      cases m with
      | zero =>
          rw [List.takeWhile_cons]
          have ha : q a = false := hq
          rw [ha]
          simp
      | succ k =>
          rw [List.takeWhile_cons]
          by_cases hqa : q a = true
          · rw [if_pos hqa, List.length_cons]
            have := ih (Nat.lt_of_succ_lt_succ hm) hq
            omega
          · rw [Bool.not_eq_true] at hqa
            rw [hqa]
            simp

/-- Truncating a list past the position of its first hit does not change
which index `findIdx?` returns. -/
theorem findIdx?_take_of_lt {α : Type} {p : α → Bool} {l : List α} {i j : Nat}
    (h : l.findIdx? p = some i) (hij : i < j) :
    (l.take j).findIdx? p = some i := by
  rw [List.findIdx?_eq_some_iff_getElem] at h ⊢
  obtain ⟨hi, hp, hmin⟩ := h
  have hi' : i < (l.take j).length := by
    rw [List.length_take]
    omega
  refine ⟨hi', ?_, ?_⟩
  · rw [List.getElem_take]
    exact hp
  · intro k hk
    rw [List.getElem_take]
    exact hmin k hk

/-! ### The claims -/

/-- C1: a line matches the target heading iff it starts with the literal text
`"## ["` + identifier + `"]"` followed immediately by a whitespace character
or by end-of-line; the identifier (here an arbitrary character sequence, so
in particular one containing `.`, `*`, `[`, `]`) is compared
character-for-character, never as a pattern. -/
theorem c1_headerMatch_characterization (version line : Line)
    (h : pyStrip version ≠ []) :
    headerMatch (pyStrip version) line = true ↔
      ∃ rest, line = "## [".data ++ pyStrip version ++ "]".data ++ rest ∧
        (rest = [] ∨ ∃ c cs, rest = c :: cs ∧ pyIsSpace c = true) := by
  unfold headerMatch
  constructor
  · intro hm
    rw [Bool.and_eq_true] at hm
    obtain ⟨h1, h2⟩ := hm
    have hpre : line.take (headerPat (pyStrip version)).length
        = headerPat (pyStrip version) := eq_of_beq h1
    refine ⟨line.drop (headerPat (pyStrip version)).length, ?_, ?_⟩
    · conv_lhs =>
        rw [← List.take_append_drop (headerPat (pyStrip version)).length line]
      rw [hpre]
      rfl
    · cases hd : line.drop (headerPat (pyStrip version)).length with
      | nil => exact Or.inl rfl
      | cons c cs =>
          rw [hd] at h2
          exact Or.inr ⟨c, cs, rfl, h2⟩
  · rintro ⟨rest, rfl, hrest⟩
    rw [Bool.and_eq_true]
    have hshape : "## [".data ++ pyStrip version ++ "]".data ++ rest
        = headerPat (pyStrip version) ++ rest := rfl
    constructor
    · rw [hshape, List.take_left]
      exact beq_self_eq_true _
    · rw [hshape, List.drop_left]
      rcases hrest with rfl | ⟨c, cs, rfl, hc⟩
      · rfl
      · exact hc

/-- Witness for C1 at the identifier `"1.2.3"` (which contains the
pattern-special character `.`) and a concrete heading line. -/
theorem c1_witness :
    headerMatch (pyStrip "1.2.3".data) "## [1.2.3] - 2024-01-01".data = true ↔
      ∃ rest, "## [1.2.3] - 2024-01-01".data
          = "## [".data ++ pyStrip "1.2.3".data ++ "]".data ++ rest ∧
        (rest = [] ∨ ∃ c cs, rest = c :: cs ∧ pyIsSpace c = true) :=
  c1_headerMatch_characterization "1.2.3".data "## [1.2.3] - 2024-01-01".data
    (by decide)

/-- C2: when the document has a matched heading line, the raw section is
exactly the lines strictly after it and strictly before the first later line
starting with `"## ["`; with no such later line it runs to the end of the
document (then `rest` below is empty). -/
theorem c2_rawSection_boundaries (doc : List Line) (version : Line) (i : Nat)
    (h : doc.findIdx? (headerMatch version) = some i) :
    ∃ rest, doc.drop (i + 1) = rawSection doc i ++ rest ∧
      (∀ l ∈ rawSection doc i, isBoundary l = false) ∧
      (rest = [] ∨ ∃ b bs, rest = b :: bs ∧ isBoundary b = true) := by
  refine ⟨(doc.drop (i + 1)).dropWhile (fun l => !isBoundary l), ?_, ?_, ?_⟩
  · rw [rawSection_eq_takeWhile, List.takeWhile_append_dropWhile]
  · intro l hl
    rw [rawSection_eq_takeWhile] at hl
    have := mem_takeWhile_pred hl
    simpa using this
  · cases hd : (doc.drop (i + 1)).dropWhile (fun l => !isBoundary l) with
    | nil => exact Or.inl rfl
    | cons b bs =>
        refine Or.inr ⟨b, bs, rfl, ?_⟩
        have := head?_dropWhile_false (p := fun l => !isBoundary l)
          (l := doc.drop (i + 1)) (by rw [hd]; rfl)
        simpa using this

/-- Witness for C2 on a three-line document whose heading is followed by one
body line and a second heading. -/
theorem c2_witness :
    ∃ rest,
      (["## [1.0]".data, "body".data, "## [0.9]".data] : List Line).drop (0 + 1)
          = rawSection ["## [1.0]".data, "body".data, "## [0.9]".data] 0 ++ rest ∧
        (∀ l ∈ rawSection ["## [1.0]".data, "body".data, "## [0.9]".data] 0,
          isBoundary l = false) ∧
        (rest = [] ∨ ∃ b bs, rest = b :: bs ∧ isBoundary b = true) :=
  c2_rawSection_boundaries ["## [1.0]".data, "body".data, "## [0.9]".data]
    "1.0".data 0 (by decide)

/-- C3: the first matching heading wins — truncating the document at any
later line that also matches the same identifier's heading leaves the
extraction outcome unchanged, so later duplicate headings never influence
the returned section. -/
theorem c3_first_heading_wins (doc : List Line) (version : Line) (i j : Nat)
    (hfind : doc.findIdx? (headerMatch version) = some i)
    (hij : i < j) (hj : j < doc.length)
    (hmatch : headerMatch version (doc.get ⟨j, hj⟩) = true) :
    scanDoc doc version = scanDoc (doc.take j) version := by
  have hraw : rawSection (doc.take j) i = rawSection doc i := by
    rw [rawSection_eq_takeWhile, rawSection_eq_takeWhile,
      List.drop_take, ← List.take_takeWhile]
    apply List.take_of_length_le
    have hmem : j - (i + 1) < (doc.drop (i + 1)).length := by
      rw [List.length_drop]
      omega
    have hget : (doc.drop (i + 1)).get ⟨j - (i + 1), hmem⟩ = doc.get ⟨j, hj⟩ := by
      simp only [List.get_eq_getElem, List.getElem_drop]
      congr 1
      omega
    apply takeWhile_length_le hmem
    rw [hget]
    show (!isBoundary (doc.get ⟨j, hj⟩)) = false
    rw [isBoundary_of_headerMatch version _ hmatch]
    rfl
  unfold scanDoc
  rw [hfind, findIdx?_take_of_lt hfind hij]
  show Outcome.mk 0 (pyRstrip (joinNL (trimBlanks (rawSection doc i))) ++ ['\n']) []
      = Outcome.mk 0
        (pyRstrip (joinNL (trimBlanks (rawSection (doc.take j) i))) ++ ['\n']) []
  rw [hraw]

/-- Witness for C3 on a document with two headings for the same version. -/
theorem c3_witness :
    scanDoc ["## [1.0]".data, "a".data, "## [1.0]".data, "b".data] "1.0".data
      = scanDoc (["## [1.0]".data, "a".data, "## [1.0]".data, "b".data].take 2)
        "1.0".data :=
  c3_first_heading_wins ["## [1.0]".data, "a".data, "## [1.0]".data, "b".data]
    "1.0".data 0 2 (by decide) (by decide) (by decide) (by decide)

/-! ### Unfolding `run` on each argument-vector shape -/

theorem run_nil (doc : List Line) : run [] doc = ⟨2, [], usageMsg⟩ := rfl

theorem run_single (v : Line) (doc : List Line) :
    run [v] doc =
      if pyStrip v = [] then ⟨2, [], emptyMsg⟩ else scanDoc doc (pyStrip v) := rfl

theorem run_two (v₁ v₂ : Line) (rest doc : List Line) :
    run (v₁ :: v₂ :: rest) doc = ⟨2, [], usageMsg⟩ := rfl

/-- C4: the emitted body drops blank (empty or whitespace-only) lines from
the front and from the back of the raw section, keeps the interior lines in
order (the trimmed body is a contiguous slice of the raw section), and a raw
section of blank lines only reduces to the empty sequence. -/
theorem c4_trimBlanks_spec (ls : List Line) :
    (∃ front back, ls = front ++ trimBlanks ls ++ back ∧
        (∀ l ∈ front, isBlank l = true) ∧ (∀ l ∈ back, isBlank l = true) ∧
        (∀ a, (trimBlanks ls).head? = some a → isBlank a = false) ∧
        (∀ a, (trimBlanks ls).getLast? = some a → isBlank a = false)) ∧
    ((∀ l ∈ ls, isBlank l = true) → trimBlanks ls = []) := by
  constructor
  · obtain ⟨front, back, hdecomp, hfront, hback⟩ := trimEnds_decomp isBlank ls
    exact ⟨front, back, hdecomp, hfront, hback,
      fun a ha => trimEnds_head? isBlank ls ha,
      fun a ha => trimEnds_getLast? isBlank ls ha⟩
  · intro h
    exact trimEnds_eq_nil isBlank ls h

/-- Witness for C4: a raw section of blank lines trims to nothing. -/
theorem c4_witness : trimBlanks ["  ".data, "".data, "\t".data] = [] :=
  (c4_trimBlanks_spec ["  ".data, "".data, "\t".data]).2 (by decide)

/-- C5: on success the output is the trimmed section's lines joined with a
single newline, with trailing whitespace stripped from the joined text,
plus exactly one final newline; an empty trimmed section yields `"\n"`. -/
theorem c5_output_format (version : Line) (doc : List Line) (i : Nat)
    (hv : pyStrip version ≠ [])
    (h : doc.findIdx? (headerMatch (pyStrip version)) = some i) :
    run [version] doc
        = ⟨0, pyRstrip (List.intercalate ['\n'] (trimBlanks (rawSection doc i)))
              ++ ['\n'], []⟩ ∧
      (trimBlanks (rawSection doc i) = [] → (run [version] doc).out = ['\n']) := by
  have hrun : run [version] doc = scanDoc doc (pyStrip version) := by
    rw [run_single, if_neg hv]
  constructor
  · rw [hrun]
    unfold scanDoc
    rw [h, ← joinNL_eq_intercalate]
  · intro hempty
    rw [hrun]
    unfold scanDoc
    rw [h]
    show (pyRstrip (joinNL (trimBlanks (rawSection doc i))) ++ ['\n'] : Line) = ['\n']
    rw [hempty]
    rfl

/-- Witness for C5: a heading with no body yields output `"\n"`. -/
theorem c5_witness :
    run ["0.1.0".data] ["## [0.1.0] - 2023-01-01".data]
        = ⟨0, pyRstrip (List.intercalate ['\n']
              (trimBlanks (rawSection ["## [0.1.0] - 2023-01-01".data] 0)))
            ++ ['\n'], []⟩ ∧
      (trimBlanks (rawSection ["## [0.1.0] - 2023-01-01".data] 0) = [] →
        (run ["0.1.0".data] ["## [0.1.0] - 2023-01-01".data]).out = ['\n']) :=
  c5_output_format "0.1.0".data ["## [0.1.0] - 2023-01-01".data] 0
    (by decide) (by decide)

/-- C6: with the wrong number of arguments, or a version identifier that is
empty after trimming, the run exits with code 2, writes a diagnostic to
standard error, and its outcome does not depend on the document — the
document is never consulted. -/
theorem c6_usage_error (argv doc doc' : List Line)
    (h : argv.length ≠ 1 ∨ ∃ v, argv = [v] ∧ pyStrip v = []) :
    run argv doc = run argv doc' ∧ (run argv doc).exitCode = 2 ∧
      (run argv doc).err ≠ [] := by
  match argv with
  | [] =>
      refine ⟨rfl, rfl, ?_⟩
      rw [run_nil]
      decide
  | [v] =>
      have hv : pyStrip v = [] := by
        rcases h with h1 | ⟨w, hw, hws⟩
        · exact absurd rfl h1
        · injection hw with hvw _
          rw [hvw]
          exact hws
      rw [run_single, run_single, if_pos hv, if_pos hv]
      refine ⟨rfl, rfl, ?_⟩
      decide
  | v₁ :: v₂ :: rest =>
      rw [run_two, run_two]
      refine ⟨rfl, rfl, ?_⟩
      decide

/-- Witness for C6: a whitespace-only identifier, two unrelated documents. -/
theorem c6_witness :
    run ["  ".data] ["## [1.0]".data] = run ["  ".data] [] ∧
      (run ["  ".data] ["## [1.0]".data]).exitCode = 2 ∧
      (run ["  ".data] ["## [1.0]".data]).err ≠ [] :=
  c6_usage_error ["  ".data] ["## [1.0]".data] []
    (Or.inr ⟨"  ".data, rfl, by decide⟩)

/-- C7: when no line matches the target heading the run exits with code 1,
writes nothing to standard output, and the standard-error diagnostic names
the (normalized) version identifier. -/
theorem c7_not_found (version : Line) (doc : List Line)
    (hv : pyStrip version ≠ [])
    (h : ∀ line ∈ doc, headerMatch (pyStrip version) line = false) :
    run [version] doc = ⟨1, [], notFoundMsg (pyStrip version)⟩ ∧
      ∃ pre suf, notFoundMsg (pyStrip version) = pre ++ pyStrip version ++ suf := by
  constructor
  · rw [run_single, if_neg hv]
    unfold scanDoc
    rw [List.findIdx?_eq_none_iff.mpr h]
  · exact ⟨"Could not find CHANGELOG section for version ".data, ['\n'], rfl⟩

/-- Witness for C7 at version `"9.9.9"` and a one-heading document. -/
theorem c7_witness :
    run ["9.9.9".data] ["## [0.1.0]".data]
        = ⟨1, [], notFoundMsg (pyStrip "9.9.9".data)⟩ ∧
      ∃ pre suf, notFoundMsg (pyStrip "9.9.9".data)
          = pre ++ pyStrip "9.9.9".data ++ suf :=
  c7_not_found "9.9.9".data ["## [0.1.0]".data] (by decide) (by decide)

/-- C8: extraction is a pure, deterministic function of the pair
(arguments, document): the embedding of `main` is a mathematical function
with no other state, so two runs on the same pair give the same outcome —
in particular byte-identical standard output and equal exit codes. -/
theorem c8_deterministic (argv doc : List Line) :
    run argv doc = run argv doc ∧
      (run argv doc).out = (run argv doc).out ∧
      (run argv doc).exitCode = (run argv doc).exitCode :=
  ⟨rfl, rfl, rfl⟩

/-- C9: extraction applied to an identifier equals extraction applied to its
whitespace-trimmed form — surrounding whitespace on the identifier never
changes the result. -/
theorem c9_strip_invariant (version : Line) (doc : List Line)
    (h : pyStrip version ≠ []) :
    run [version] doc = run [pyStrip version] doc := by
  rw [run_single, run_single, pyStrip_idem]

/-- Witness for C9 with an identifier carrying surrounding whitespace. -/
theorem c9_witness :
    run ["  1.0 ".data] ["## [1.0]".data]
      = run [pyStrip "  1.0 ".data] ["## [1.0]".data] :=
  c9_strip_invariant "  1.0 ".data ["## [1.0]".data] (by decide)

/-- Elements kept by the two-sided trim come from the original list. -/
theorem trimEnds_mem {α : Type} {p : α → Bool} {l : List α} {a : α}
    (h : a ∈ ((l.dropWhile p).reverse.dropWhile p).reverse) : a ∈ l := by
  obtain ⟨front, back, hdec, -, -⟩ := trimEnds_decomp p l
  rw [hdec]
  exact List.mem_append_left _ (List.mem_append_right _ h)

/-- Characters surviving `rstrip` come from the original text. -/
theorem mem_pyRstrip {l : Line} {c : Char} (h : c ∈ pyRstrip l) : c ∈ l := by
  obtain ⟨t, hdec, -⟩ := pyRstrip_decomp l
  rw [hdec]
  exact List.mem_append_left _ h

/-- Core of C10: joining non-boundary, newline-free lines whose last line is
not blank, right-stripping, and appending a final newline produces a text
none of whose lines starts with `"## ["`. -/
theorem out_lines_no_boundary (B : List Line)
    (hB_nb : ∀ l ∈ B, isBoundary l = false)
    (hB_nnl : ∀ l ∈ B, ¬ '\n' ∈ l)
    (hB_last : ∀ a, B.getLast? = some a → isBlank a = false) :
    ∀ l ∈ linesOf (pyRstrip (joinNL B) ++ ['\n']), isBoundary l = false := by
  rcases List.eq_nil_or_concat B with rfl | ⟨bs, last, rfl⟩
  · decide
  · rw [List.concat_eq_append] at hB_nb hB_nnl hB_last ⊢
    have hlast_mem : last ∈ bs ++ [last] :=
      List.mem_append_right _ (List.mem_singleton_self _)
    have hlast_nblank : isBlank last = false :=
      hB_last last (by rw [List.getLast?_concat])
    have hlast_rstrip_ne : pyRstrip last ≠ [] := by
      intro h0
      have hs := pyRstrip_eq_nil_of_strip last h0
      unfold isBlank at hlast_nblank
      rw [hs] at hlast_nblank
      simp at hlast_nblank
    have hstep1 : pyRstrip (joinNL (bs ++ [last])) = joinNL (bs ++ [pyRstrip last]) := by
      cases bs with
      | nil => rfl
      | cons b bs' =>
          rw [joinNL_append_single _ last (List.cons_ne_nil b bs'),
            joinNL_append_single _ (pyRstrip last) (List.cons_ne_nil b bs')]
          have hsplit : joinNL (b :: bs') ++ '\n' :: last
              = (joinNL (b :: bs') ++ ['\n']) ++ last := by simp
          rw [hsplit, pyRstrip_append _ last hlast_rstrip_ne]
          simp
    have hstep2 : pyRstrip (joinNL (bs ++ [last])) ++ ['\n']
        = joinNL ((bs ++ [pyRstrip last]) ++ [[]]) := by
      rw [hstep1, joinNL_append_single (bs ++ [pyRstrip last]) [] (by simp)]
    have hlines : linesOf (pyRstrip (joinNL (bs ++ [last])) ++ ['\n'])
        = (bs ++ [pyRstrip last]) ++ [[]] := by
      rw [hstep2]
      apply linesOf_joinNL
      · simp
      · intro l hl
        rcases List.mem_append.mp hl with hl1 | hl2
        · rcases List.mem_append.mp hl1 with hbs | hx
          · exact hB_nnl l (List.mem_append_left _ hbs)
          · rw [List.mem_singleton] at hx
            subst hx
            intro hmem
            exact hB_nnl last hlast_mem (mem_pyRstrip hmem)
        · rw [List.mem_singleton] at hl2
          subst hl2
          simp
    intro l hl
    rw [hlines] at hl
    rcases List.mem_append.mp hl with hl1 | hl2
    · rcases List.mem_append.mp hl1 with hbs | hx
      · exact hB_nb l (List.mem_append_left _ hbs)
      · rw [List.mem_singleton] at hx
        subst hx
        by_contra hcon
        rw [Bool.not_eq_false] at hcon
        obtain ⟨t, hdec, -⟩ := pyRstrip_decomp last
        have hbl : isBoundary last = true := by
          rw [hdec]
          exact isBoundary_append _ _ hcon
        rw [hB_nb last hlast_mem] at hbl
        exact Bool.false_ne_true hbl
    · rw [List.mem_singleton] at hl2
      subst hl2
      decide

/-- C10: on a successful extraction no line of the emitted output starts
with `"## ["` — neither the matched heading line nor any later heading line
appears in the output. (`hnl` reflects that document lines come from
`splitlines` and so contain no newline character.) -/
theorem c10_no_heading_in_output (version : Line) (doc : List Line) (i : Nat)
    (hnl : ∀ line ∈ doc, ¬ '\n' ∈ line)
    (hv : pyStrip version ≠ [])
    (hfound : doc.findIdx? (headerMatch (pyStrip version)) = some i) :
    ∀ l ∈ linesOf (run [version] doc).out, isBoundary l = false := by
  have hout : (run [version] doc).out
      = pyRstrip (joinNL (trimBlanks (rawSection doc i))) ++ ['\n'] := by
    rw [run_single, if_neg hv]
    unfold scanDoc
    rw [hfound]
  have hraw_nb : ∀ l ∈ rawSection doc i, isBoundary l = false := by
    intro l hl
    rw [rawSection_eq_takeWhile] at hl
    have := mem_takeWhile_pred hl
    simpa using this
  have hraw_mem : ∀ l ∈ rawSection doc i, l ∈ doc := by
    intro l hl
    rw [rawSection_eq_takeWhile] at hl
    exact (List.drop_sublist _ _).subset ((List.takeWhile_sublist _).subset hl)
  rw [hout]
  apply out_lines_no_boundary
  · intro l hl
    exact hraw_nb l (trimEnds_mem hl)
  · intro l hl
    exact hnl l (hraw_mem l (trimEnds_mem hl))
  · intro a ha
    exact trimEnds_getLast? isBlank (rawSection doc i) ha

/-- Witness for C10 on a two-section document, checked at the one line the
output actually contains. -/
theorem c10_witness : isBoundary "body".data = false :=
  c10_no_heading_in_output "1.0".data
    ["## [1.0]".data, "body".data, "## [0.9]".data] 0
    (by decide) (by decide) (by decide) "body".data (by decide)

end ExtractChangelog
